import Mathlib

/-!
Verification of the rmm core (src/rmm/core2.py): a shallow embedding of the
Mod record type, the ModList sequence operations, the three mod-list text
codecs, and the load-order sorting of class Sort, together with theorems
settling the specified properties of these components.
-/

namespace Rmm

/-- Python whitespace as recognised by str.strip and int(). -/
def pySpace (c : Char) : Bool :=
  c == ' ' || c == '\t' || c == '\n' || c == '\r' || c == '\x0b' || c == '\x0c'

/-- Models Python str.strip() with no argument: removes leading and trailing
    whitespace. -/
def pyStrip (s : String) : String :=
  String.mk (((s.data.dropWhile pySpace).reverse.dropWhile pySpace).reverse)

/-- Digit-list value, most significant first. -/
def pyIntDigits (l : List Char) : Nat :=
  l.foldl (fun n c => n * 10 + (c.toNat - ('0').toNat)) 0

/-- Models Python int(str) on decimal literals: surrounding whitespace is
    stripped, one optional sign is allowed, and a nonempty run of digits is
    required; none models the ValueError raised otherwise. -/
def pyInt (s : String) : Option Int :=
  match (pyStrip s).data with
  | [] => none
  | c :: rest =>
    if c = '-' then
      if !rest.isEmpty && rest.all Char.isDigit then
        some (-(pyIntDigits rest : Int))
      else none
    else if c = '+' then
      if !rest.isEmpty && rest.all Char.isDigit then
        some ((pyIntDigits rest : Int))
      else none
    else
      if (c :: rest).all Char.isDigit then
        some ((pyIntDigits (c :: rest) : Int))
      else none

/-- Worker for pySplitOn; the fuel is always supplied as the input length plus
    one, which is enough since every step consumes at least one character. -/
def pySplitAux (sep : List Char) (maxs : Option Nat) :
    Nat → List Char → List Char → List (List Char)
  | 0, acc, l => [acc.reverse ++ l]
  | _ + 1, acc, [] => [acc.reverse]
  | fuel + 1, acc, c :: rest =>
    if maxs = some 0 then [acc.reverse ++ c :: rest]
    else if sep ≠ [] ∧ (c :: rest).take sep.length = sep then
      acc.reverse :: pySplitAux sep (maxs.map (fun k => k - 1)) fuel [] ((c :: rest).drop sep.length)
    else
      pySplitAux sep maxs fuel (c :: acc) rest

/-- Models Python str.split(sep) for a nonempty separator. -/
def pySplitOn (s : String) (sep : String) : List String :=
  (pySplitAux sep.data none (s.data.length + 1) [] s.data).map String.mk

/-- Models Python str.split(sep, maxsplit). -/
def pySplitOnN (s : String) (sep : String) (maxs : Nat) : List String :=
  (pySplitAux sep.data (some maxs) (s.data.length + 1) [] s.data).map String.mk

/-- Models Python str() on an Optional[int]: None prints as the literal string
    None. -/
def pyStrOptInt (o : Option Int) : String :=
  match o with
  | none => "None"
  | some n => toString n

/-- The Mod record of core2.py; optional constructor arguments default to
    None/False exactly as in the Python constructor. -/
structure Mod where
  packageid : String
  before : Option (List String) := none
  after : Option (List String) := none
  incompatible : Option (List String) := none
  author : Option String := none
  name : Option String := none
  versions : Option (List String) := none
  steamid : Option Int := none
  ignored : Bool := false
  repo_url : Option String := none
  workshop_managed : Option Bool := none
  deriving DecidableEq, Repr

/-- Models Mod.__eq__ applied to another Mod: equality is by packageid alone. -/
def Mod.eqMod (self other : Mod) : Bool :=
  self.packageid == other.packageid

/-- Models Mod.__eq__ applied to a str (also reached through Python reflected
    equality when a plain string is compared with a Mod): the packageid is
    compared with the string. -/
def Mod.eqStr (self : Mod) (other : String) : Bool :=
  self.packageid == other

/-- Models ModStub.__init__(steamid): a Mod with empty packageid carrying only
    the steam id. -/
def ModStub.make (steamid : Int) : Mod :=
  { packageid := "", steamid := some steamid }

/-- Models ModList.insert, whose body is the item assignment
    self.data[i] = x rather than a list insertion; Python item assignment
    accepts indices in the interval from -len to len-1 (negative indices count
    from the end) and raises IndexError, modelled as Except.error, otherwise. -/
def ModList.insert (data : List Mod) (i : Int) (x : Mod) : Except Unit (List Mod) :=
  let j : Int := if i < 0 then i + data.length else i
  if 0 ≤ j ∧ j < data.length then Except.ok (data.set j.toNat x) else Except.error ()

/-- Models append as inherited from MutableSequence: append(v) calls
    insert(len(self), v). -/
def ModList.append (data : List Mod) (x : Mod) : Except Unit (List Mod) :=
  ModList.insert data (data.length : Int) x

namespace ModListV3Format

/-- Models ModListV3Format.format. The conditional expressions in the source,
    str(mod.steamid) if not None else "" and mod.repo_url if not None else "",
    test the constant None, which is always falsy, so both always take the
    first branch: str() is applied even to an absent steamid, and an absent
    repo_url stays None inside the produced row. -/
def format (mod : Mod) : List (Option String) :=
  [some mod.packageid, some (pyStrOptInt mod.steamid), mod.repo_url]

/-- Models csv.writer.writerow on fields free of delimiter, quote and newline
    characters: fields joined by commas, a None field written as empty, and the
    writer's CRLF row terminator appended. -/
def csvWriteRow (fields : List (Option String)) : String :=
  String.intercalate "," (fields.map (fun f => f.getD "")) ++ "\r\n"

/-- Models ModListV3Format.serialize: one csv row per mod in collection order,
    stripped of the row terminator by buffer.pop().strip(). -/
def serialize (mods : List Mod) : List String :=
  mods.map (fun m => pyStrip (csvWriteRow (format m)))

/-- Models one row of csv.reader on quote-free input: an empty line yields an
    empty row, any other line splits on commas. -/
def csvRow (line : String) : List String :=
  if line = "" then [] else pySplitOn line ","

/-- Models ModListV3Format.parse: rows come from the newline-split text; a row
    that is too short raises IndexError and a non-integer steam id raises
    ValueError, both caught by the loop, which skips the row and reports it.
    The result is the yielded mods together with the skipped rows. -/
def parse (text : String) : List Mod × List (List String) :=
  (pySplitOn text "\n").foldl
    (fun acc line =>
      let parsed := csvRow line
      match parsed.get? 0, parsed.get? 1, parsed.get? 2 with
      | some pkg, some sid, some rurl =>
        match pyInt sid with
        | some n =>
          (acc.1 ++ [{ packageid := pkg, steamid := some n, repo_url := some rurl }], acc.2)
        | none => (acc.1, acc.2 ++ [parsed])
      | _, _, _ => (acc.1, acc.2 ++ [parsed]))
    ([], [])

end ModListV3Format

namespace ModListV2Format

def SEPERATOR : String := "::"

/-- Models ModListV2Format.format: SEPERATOR.join over the three fields. The
    truthiness-guarded conditionals always pick the field expression itself, so
    an absent steamid becomes the string None, and an absent repo_url stays the
    value None, on which str.join raises TypeError, modelled as Except.error. -/
def format (mod : Mod) : Except Unit String :=
  match mod.repo_url with
  | none => Except.error ()
  | some r =>
    Except.ok (String.intercalate SEPERATOR [mod.packageid, pyStrOptInt mod.steamid, r])

/-- Models ModListV2Format.serialize: format(m) per mod, propagating the
    TypeError that a None repo_url causes inside format. -/
def serialize (mods : List Mod) : Except Unit (List String) :=
  mods.mapM format

/-- Loop of ModListV2Format.parse. The source iterates for line in text where
    text is a str, so each iteration handles a single character: the character
    is split on the separator (yielding itself), passes the emptiness test, and
    the lookups parsed[1] and parsed[2] raise IndexError, which the except
    clause, handling only ValueError, does not catch. The body is translated
    faithfully: a ValueError from int() is caught and the entry skipped, while
    a missing index aborts the whole parse with the uncaught exception. -/
def parseGo : List Char → List Mod → Except Unit (List Mod)
  | [], acc => Except.ok acc.reverse
  | c :: rest, acc =>
    let parsed := pySplitOn (String.mk [c]) SEPERATOR
    match parsed.get? 0 with
    | none => Except.error ()
    | some pkg =>
      if pkg = "" then parseGo rest acc
      else
        match parsed.get? 1 with
        | none => Except.error ()
        | some sid =>
          match pyInt sid with
          | none => parseGo rest acc
          | some n =>
            match parsed.get? 2 with
            | none => Except.error ()
            | some r =>
              parseGo rest ({ packageid := pkg, steamid := some n, repo_url := some r } :: acc)

/-- Models ModListV2Format.parse; see parseGo. -/
def parse (text : String) : Except Unit (List Mod) :=
  parseGo text.data []

end ModListV2Format

namespace ModListV1Format

/-- Models ModListV1Format.parse: each newline-separated line is split on the
    first hash; when the left part is not an integer the int() call raises
    ValueError, which is caught: nonblank offending lines are reported and
    blank lines are skipped silently. The result is the yielded stubs together
    with the reported lines. -/
def parse (text : String) : List Mod × List String :=
  (pySplitOn text "\n").foldl
    (fun acc line =>
      let parsed := pySplitOnN line "#" 1
      match parsed.get? 0 with
      | none => acc
      | some left =>
        match pyInt left with
        | some n => (acc.1 ++ [ModStub.make n], acc.2)
        | none => if line = "" then acc else (acc.1, acc.2 ++ [line]))
    ([], [])

/-- Models ModListV1Format.format: the write-only annotation line; name and
    author interpolate through str(), so absent values print as None. -/
def format (mod : Mod) : String :=
  pyStrOptInt mod.steamid ++ "# " ++ mod.name.getD "None" ++ " by " ++ mod.author.getD "None" ++ " "

/-- Models ModListV1Format.serialize. -/
def serialize (mods : List Mod) : List String :=
  mods.map format

end ModListV1Format

namespace Sort'

/-- The hardcoded ignore list of Sort.graph. -/
def ignoreList : List String :=
  ["brrainz.harmony", "UnlimitedHugs.HugsLib"]

/-- Models the Python membership test a in mods on a ModList: the string is
    compared against each record in turn, which resolves through the reflected
    Mod.__eq__ comparing the record's packageid with the string. -/
def modsContains (mods : List Mod) (s : String) : Bool :=
  mods.any (fun m => m.eqStr s)

/-- Models the combination if m.after: for a in m.after: of the source: a None
    value and an empty list both produce no iterations. -/
def pyIter (o : Option (List String)) : List String :=
  o.getD []

/-- The add_edge calls Sort.graph makes for one record m, in source order:
    first the after list (edges a to m), then the before list (edges m to b);
    an edge is requested only when the referenced id is present in the
    collection and neither the reference nor m's packageid is ignored. -/
def modEdges (mods : List Mod) (m : Mod) : List (String × String) :=
  ((pyIter m.after).filter
      (fun a => modsContains mods a && !(decide (a ∈ ignoreList))
        && !(decide (m.packageid ∈ ignoreList)))).map (fun a => (a, m.packageid))
    ++ ((pyIter m.before).filter
      (fun b => modsContains mods b && !(decide (b ∈ ignoreList))
        && !(decide (m.packageid ∈ ignoreList)))).map (fun b => (m.packageid, b))

/-- All add_edge calls of Sort.graph over the collection, in order. -/
def rawEdges (mods : List Mod) : List (String × String) :=
  mods.flatMap (modEdges mods)

/-- Models networkx DiGraph.add_edge: adding an existing edge changes nothing. -/
def addEdge (es : List (String × String)) (e : String × String) : List (String × String) :=
  if e ∈ es then es else es ++ [e]

/-- The edge list of the built graph, with networkx set semantics: duplicates
    dropped, first-insertion order kept. -/
def graphEdges (mods : List Mod) : List (String × String) :=
  (rawEdges mods).foldl addEdge []

/-- Models DiGraph node creation by add_edge: each endpoint is added when first
    mentioned, source endpoint first. -/
def addNode (ns : List String) (v : String) : List String :=
  if v ∈ ns then ns else ns ++ [v]

/-- The node list of the built graph, in insertion order. -/
def graphNodes (mods : List Mod) : List String :=
  (graphEdges mods).foldl (fun ns e => addNode (addNode ns e.1) e.2) []

/-- A node is ready when no edge reaches it from a node still waiting. -/
def isSource (edges : List (String × String)) (rem : List String) (v : String) : Bool :=
  decide (∀ e ∈ edges, e.2 = v → e.1 ∉ rem)

/-- Models networkx topological_sort, the Kahn peeling of ready nodes: the
    library contract promises a topological order of the nodes and a
    NetworkXUnfeasible exception on cyclic graphs, but leaves the choice among
    simultaneously ready nodes unspecified; this model takes the first ready
    node in node-insertion order. The error value, like the library exception,
    carries no node data. The fuel is always supplied as the node count. -/
def topoSort (edges : List (String × String)) : Nat → List String → Except Unit (List String)
  | _, [] => Except.ok []
  | 0, _ :: _ => Except.error ()
  | fuel + 1, x :: xs =>
    match (x :: xs).find? (isSource edges (x :: xs)) with
    | none => Except.error ()
    | some u =>
      match topoSort edges fuel ((x :: xs).erase u) with
      | Except.ok out => Except.ok (u :: out)
      | Except.error e => Except.error e

/-- Models the sorting phase of Sort.graph: build the graph from the
    collection, then list its nodes in topological order; the plotting calls of
    the source are outside this model. -/
def resolve (mods : List Mod) : Except Unit (List String) :=
  topoSort (graphEdges mods) (graphNodes mods).length (graphNodes mods)

end Sort'

/-- Modelled from the spec: the tie-break of the LoadOrderResolver in section
    4.2, which the source does not implement (Sort.graph delegates the order to
    networkx): among the ready nodes, the one appearing earliest in the
    supplied tie-break order is chosen next. Present only to compare the
    mandated behavior with the source's. -/
def specPick (ord : List String) (edges : List (String × String)) (rem : List String) :
    Option String :=
  ord.find? (fun v => decide (v ∈ rem) && Sort'.isSource edges rem v)

/-- Modelled from the spec: Kahn peeling driven by specPick. -/
def specTopoSort (ord : List String) (edges : List (String × String)) :
    Nat → List String → Except Unit (List String)
  | _, [] => Except.ok []
  | 0, _ :: _ => Except.error ()
  | fuel + 1, x :: xs =>
    match specPick ord edges (x :: xs) with
    | none => Except.error ()
    | some u =>
      match specTopoSort ord edges fuel ((x :: xs).erase u) with
      | Except.ok out => Except.ok (u :: out)
      | Except.error e => Except.error e

/-- Modelled from the spec: resolution with the tie-break order equal to the
    originating collection's insertion order of package ids. -/
def specResolve (mods : List Mod) : Except Unit (List String) :=
  specTopoSort (mods.map Mod.packageid) (Sort'.graphEdges mods)
    (Sort'.graphNodes mods).length (Sort'.graphNodes mods)

/-- u occurs strictly before v in the list. -/
def Precedes (u v : String) (l : List String) : Prop :=
  ∃ l1 l2 l3, l = l1 ++ u :: l2 ++ v :: l3

/-- The edge relation of an edge list. -/
def edgeRel (edges : List (String × String)) (u v : String) : Prop :=
  (u, v) ∈ edges

/-- Two-record acyclic demonstration collection: a loads before b. -/
def demoA : Mod := { packageid := "a", before := some ["b"] }

def demoB : Mod := { packageid := "b" }

/-- Two-record cyclic collection: a before b and b before a. -/
def cycleA : Mod := { packageid := "a", before := some ["b"] }

def cycleB : Mod := { packageid := "b", before := some ["a"] }

/-- Collection on which the ready-node tie-breaks of the library order and of
    the collection order disagree. -/
def tieMods : List Mod :=
  [{ packageid := "a", before := some ["b"] },
   { packageid := "b" },
   { packageid := "c", before := some ["d"] },
   { packageid := "d" },
   { packageid := "p", after := some ["r"] },
   { packageid := "q", before := some ["p"] },
   { packageid := "r" }]

/-- Collection whose first record has the ignored flag set and declares an
    ordering relation. -/
def ignMods : List Mod :=
  [{ packageid := "a", before := some ["b"], ignored := true },
   { packageid := "b" }]

/-- Fully populated delimiter-free record for round-trip checks. -/
def rtMod : Mod := { packageid := "a.b", steamid := some 3, repo_url := some "r" }

/-- Record whose optional fields are all absent. -/
def noneMod : Mod := { packageid := "a.b" }

theorem mem_addEdge {es : List (String × String)} {e x : String × String} :
    x ∈ Sort'.addEdge es e ↔ x ∈ es ∨ x = e := by
  unfold Sort'.addEdge
  split
  · rename_i h
    constructor
    · exact Or.inl
    · rintro (hx | rfl)
      · exact hx
      · exact h
  · simp [List.mem_append]

theorem mem_foldl_addEdge {l acc : List (String × String)} {x : String × String} :
    x ∈ l.foldl Sort'.addEdge acc ↔ x ∈ acc ∨ x ∈ l := by
  induction l generalizing acc with
  | nil => simp
  | cons e t ih =>
    rw [List.foldl_cons, ih, mem_addEdge]
    constructor
    · rintro ((h | rfl) | h)
      · exact Or.inl h
      · exact Or.inr (List.mem_cons_self _ _)
      · exact Or.inr (List.mem_cons_of_mem _ h)
    · rintro (h | h)
      · exact Or.inl (Or.inl h)
      · rcases List.mem_cons.mp h with rfl | h2
        · exact Or.inl (Or.inr rfl)
        · exact Or.inr h2

theorem mem_graphEdges {mods : List Mod} {x : String × String} :
    x ∈ Sort'.graphEdges mods ↔ x ∈ Sort'.rawEdges mods := by
  unfold Sort'.graphEdges
  rw [mem_foldl_addEdge]
  simp

theorem modsContains_iff {mods : List Mod} {s : String} :
    Sort'.modsContains mods s = true ↔ ∃ m ∈ mods, m.packageid = s := by
  simp [Sort'.modsContains, Mod.eqStr, List.any_eq_true]

theorem mem_modEdges {mods : List Mod} {m : Mod} {u v : String} :
    (u, v) ∈ Sort'.modEdges mods m ↔
      ((u ∈ Sort'.pyIter m.after ∧ Sort'.modsContains mods u = true ∧
          u ∉ Sort'.ignoreList ∧ m.packageid ∉ Sort'.ignoreList ∧ v = m.packageid) ∨
        (v ∈ Sort'.pyIter m.before ∧ Sort'.modsContains mods v = true ∧
          v ∉ Sort'.ignoreList ∧ m.packageid ∉ Sort'.ignoreList ∧ u = m.packageid)) := by
  unfold Sort'.modEdges
  rw [List.mem_append]
  constructor
  · rintro (h | h)
    · rcases List.mem_map.mp h with ⟨a, ha, heq⟩
      rcases List.mem_filter.mp ha with ⟨hmem, hpred⟩
      obtain ⟨hc, hig1, hig2⟩ :
          Sort'.modsContains mods a = true ∧ a ∉ Sort'.ignoreList ∧
            m.packageid ∉ Sort'.ignoreList := by
        simpa [Bool.and_eq_true, Bool.not_eq_true', decide_eq_false_iff_not, and_assoc] using hpred
      injection heq with h1 h2
      subst h1
      exact Or.inl ⟨hmem, hc, hig1, hig2, h2.symm⟩
    · rcases List.mem_map.mp h with ⟨b, hb, heq⟩
      rcases List.mem_filter.mp hb with ⟨hmem, hpred⟩
      obtain ⟨hc, hig1, hig2⟩ :
          Sort'.modsContains mods b = true ∧ b ∉ Sort'.ignoreList ∧
            m.packageid ∉ Sort'.ignoreList := by
        simpa [Bool.and_eq_true, Bool.not_eq_true', decide_eq_false_iff_not, and_assoc] using hpred
      injection heq with h1 h2
      subst h2
      exact Or.inr ⟨hmem, hc, hig1, hig2, h1.symm⟩
  · rintro (⟨hmem, hc, hig1, hig2, rfl⟩ | ⟨hmem, hc, hig1, hig2, rfl⟩)
    · refine Or.inl (List.mem_map.mpr ⟨u, List.mem_filter.mpr ⟨hmem, ?_⟩, rfl⟩)
      simp [Bool.and_eq_true, Bool.not_eq_true', decide_eq_false_iff_not, hc, hig1, hig2]
    · refine Or.inr (List.mem_map.mpr ⟨v, List.mem_filter.mpr ⟨hmem, ?_⟩, rfl⟩)
      simp [Bool.and_eq_true, Bool.not_eq_true', decide_eq_false_iff_not, hc, hig1, hig2]

theorem mem_rawEdges {mods : List Mod} {u v : String} :
    (u, v) ∈ Sort'.rawEdges mods ↔ ∃ m ∈ mods, (u, v) ∈ Sort'.modEdges mods m := by
  unfold Sort'.rawEdges
  exact List.mem_flatMap

/-- C4: the built graph has exactly these edges: m to b for each id b in
    m.before naming a record present in the collection, and a to m for each id
    a in m.after naming a present record; an edge is omitted when either
    endpoint is in the ignore list, and a reference absent from the collection
    contributes nothing (construction is total, so no error is possible). -/
theorem graphEdges_spec (mods : List Mod) (u v : String) :
    (u, v) ∈ Sort'.graphEdges mods ↔
      u ∉ Sort'.ignoreList ∧ v ∉ Sort'.ignoreList ∧
        ((∃ m ∈ mods, m.packageid = u ∧ v ∈ Sort'.pyIter m.before ∧
            ∃ n ∈ mods, n.packageid = v) ∨
          (∃ m ∈ mods, m.packageid = v ∧ u ∈ Sort'.pyIter m.after ∧
            ∃ n ∈ mods, n.packageid = u)) := by
  rw [mem_graphEdges, mem_rawEdges]
  constructor
  · rintro ⟨m, hm, hme⟩
    rcases mem_modEdges.mp hme with ⟨hmem, hc, hig1, hig2, rfl⟩ | ⟨hmem, hc, hig1, hig2, rfl⟩
    · exact ⟨hig1, hig2, Or.inr ⟨m, hm, rfl, hmem, modsContains_iff.mp hc⟩⟩
    · exact ⟨hig2, hig1, Or.inl ⟨m, hm, rfl, hmem, modsContains_iff.mp hc⟩⟩
  · rintro ⟨hu, hv, ⟨m, hm, rfl, hmem, hn⟩ | ⟨m, hm, rfl, hmem, hn⟩⟩
    · exact ⟨m, hm, mem_modEdges.mpr (Or.inr ⟨hmem, modsContains_iff.mpr hn, hv, hu, rfl⟩)⟩
    · exact ⟨m, hm, mem_modEdges.mpr (Or.inl ⟨hmem, modsContains_iff.mpr hn, hu, hv, rfl⟩)⟩

theorem mem_addNode {ns : List String} {v x : String} :
    x ∈ Sort'.addNode ns v ↔ x ∈ ns ∨ x = v := by
  unfold Sort'.addNode
  split
  · rename_i h
    constructor
    · exact Or.inl
    · rintro (hx | rfl)
      · exact hx
      · exact h
  · simp [List.mem_append]

theorem mem_foldl_addNode {l : List (String × String)} {acc : List String} {x : String} :
    x ∈ l.foldl (fun ns e => Sort'.addNode (Sort'.addNode ns e.1) e.2) acc ↔
      x ∈ acc ∨ ∃ e ∈ l, x = e.1 ∨ x = e.2 := by
  induction l generalizing acc with
  | nil => simp
  | cons e t ih =>
    rw [List.foldl_cons, ih, mem_addNode, mem_addNode]
    constructor
    · rintro (((h | h) | h) | h)
      · exact Or.inl h
      · exact Or.inr ⟨e, List.mem_cons_self _ _, Or.inl h⟩
      · exact Or.inr ⟨e, List.mem_cons_self _ _, Or.inr h⟩
      · obtain ⟨e2, he2, hor⟩ := h
        exact Or.inr ⟨e2, List.mem_cons_of_mem _ he2, hor⟩
    · rintro (h | ⟨e2, he2, hor⟩)
      · exact Or.inl (Or.inl (Or.inl h))
      · rcases List.mem_cons.mp he2 with rfl | h3
        · rcases hor with h4 | h4
          · exact Or.inl (Or.inl (Or.inr h4))
          · exact Or.inl (Or.inr h4)
        · exact Or.inr ⟨e2, h3, hor⟩

theorem mem_graphNodes_of_edge {mods : List Mod} {u v : String}
    (h : (u, v) ∈ Sort'.graphEdges mods) :
    u ∈ Sort'.graphNodes mods ∧ v ∈ Sort'.graphNodes mods := by
  have h1 : u ∈ Sort'.graphNodes mods := by
    unfold Sort'.graphNodes
    rw [mem_foldl_addNode]
    exact Or.inr ⟨(u, v), h, Or.inl rfl⟩
  have h2 : v ∈ Sort'.graphNodes mods := by
    unfold Sort'.graphNodes
    rw [mem_foldl_addNode]
    exact Or.inr ⟨(u, v), h, Or.inr rfl⟩
  exact ⟨h1, h2⟩

theorem precedes_cons {u v x : String} {l : List String} (h : Precedes u v l) :
    Precedes u v (x :: l) := by
  obtain ⟨l1, l2, l3, rfl⟩ := h
  exact ⟨x :: l1, l2, l3, rfl⟩

theorem precedes_head {u v : String} {l : List String} (h : v ∈ l) :
    Precedes u v (u :: l) := by
  obtain ⟨s, t, rfl⟩ := List.append_of_mem h
  exact ⟨[], s, t, rfl⟩

theorem isSource_iff {edges : List (String × String)} {rem : List String} {v : String} :
    Sort'.isSource edges rem v = true ↔ ∀ e ∈ edges, e.2 = v → e.1 ∉ rem := by
  unfold Sort'.isSource
  exact decide_eq_true_iff

theorem topoSort_ok_perm (edges : List (String × String)) :
    ∀ fuel rem out, Sort'.topoSort edges fuel rem = Except.ok out → out.Perm rem := by
  intro fuel
  induction fuel with
  | zero =>
    intro rem out h
    cases rem with
    | nil =>
      simp only [Sort'.topoSort, Except.ok.injEq] at h
      simp [← h]
    | cons x xs => simp [Sort'.topoSort] at h
  | succ n ih =>
    intro rem out h
    cases rem with
    | nil =>
      simp only [Sort'.topoSort, Except.ok.injEq] at h
      simp [← h]
    | cons x xs =>
      cases hf : (x :: xs).find? (Sort'.isSource edges (x :: xs)) with
      | none => simp [Sort'.topoSort, hf] at h
      | some u =>
        cases hrec : Sort'.topoSort edges n ((x :: xs).erase u) with
        | error e => simp [Sort'.topoSort, hf, hrec] at h
        | ok tl =>
          have hu : u ∈ x :: xs := List.mem_of_find?_eq_some hf
          have hperm := ih _ _ hrec
          have hout : u :: tl = out := by
            simpa [Sort'.topoSort, hf, hrec] using h
          rw [← hout]
          exact (hperm.cons u).trans (List.perm_cons_erase hu).symm

theorem topoSort_ok_precedes (edges : List (String × String)) :
    ∀ fuel rem out, Sort'.topoSort edges fuel rem = Except.ok out →
      ∀ a b, (a, b) ∈ edges → a ∈ rem → b ∈ rem → Precedes a b out := by
  intro fuel
  induction fuel with
  | zero =>
    intro rem out h a b hab ha hb
    cases rem with
    | nil => exact absurd ha (List.not_mem_nil a)
    | cons x xs => simp [Sort'.topoSort] at h
  | succ n ih =>
    intro rem out h a b hab ha hb
    cases rem with
    | nil => exact absurd ha (List.not_mem_nil a)
    | cons x xs =>
      cases hf : (x :: xs).find? (Sort'.isSource edges (x :: xs)) with
      | none => simp [Sort'.topoSort, hf] at h
      | some u =>
        cases hrec : Sort'.topoSort edges n ((x :: xs).erase u) with
        | error e => simp [Sort'.topoSort, hf, hrec] at h
        | ok tl =>
          have hsrc : Sort'.isSource edges (x :: xs) u = true := List.find?_some hf
          have hout : u :: tl = out := by
            simpa [Sort'.topoSort, hf, hrec] using h
          rw [← hout]
          have hbne : b ≠ u := by
            intro hbu
            subst hbu
            exact (isSource_iff.mp hsrc (a, b) hab rfl) ha
          have hbmem : b ∈ (x :: xs).erase u := (List.mem_erase_of_ne hbne).mpr hb
          by_cases hau : a = u
          · subst hau
            have hbtl : b ∈ tl := (topoSort_ok_perm edges n _ tl hrec).mem_iff.mpr hbmem
            exact precedes_head hbtl
          · have hamem : a ∈ (x :: xs).erase u := (List.mem_erase_of_ne hau).mpr ha
            exact precedes_cons (ih _ _ hrec a b hab hamem hbmem)

theorem exists_cycle_of_no_source (edges : List (String × String)) (rem : List String)
    (hne : rem ≠ []) (h : ∀ v ∈ rem, ∃ u ∈ rem, (u, v) ∈ edges) :
    ∃ v, Relation.TransGen (edgeRel edges) v v := by
  have hstep : ∀ v : {x // x ∈ rem}, ∃ u : {x // x ∈ rem}, (u.val, v.val) ∈ edges := by
    rintro ⟨v, hv⟩
    obtain ⟨u, hu, he⟩ := h v hv
    exact ⟨⟨u, hu⟩, he⟩
  choose f hf using hstep
  obtain ⟨v0, hv0⟩ := List.exists_mem_of_ne_nil rem hne
  have hfin : Finite {x // x ∈ rem} := rem.finite_toSet.to_subtype
  obtain ⟨i, j, hij, heq⟩ :=
    Finite.exists_ne_map_eq_of_infinite (fun n : Nat => f^[n] ⟨v0, hv0⟩)
  have heq2 : f^[i] ⟨v0, hv0⟩ = f^[j] ⟨v0, hv0⟩ := heq
  have hchain : ∀ d n : Nat,
      Relation.TransGen (edgeRel edges) (f^[n + d + 1] ⟨v0, hv0⟩).val (f^[n] ⟨v0, hv0⟩).val := by
    intro d
    induction d with
    | zero =>
      intro n
      have h1 : f^[n + 0 + 1] ⟨v0, hv0⟩ = f (f^[n] ⟨v0, hv0⟩) := by
        rw [Nat.add_zero]
        exact Function.iterate_succ_apply' f n _
      rw [h1]
      exact Relation.TransGen.single (hf _)
    | succ d ihd =>
      intro n
      have h1 : f^[n + (d + 1) + 1] ⟨v0, hv0⟩ = f (f^[n + d + 1] ⟨v0, hv0⟩) := by
        have h2 : n + (d + 1) + 1 = (n + d + 1) + 1 := by omega
        rw [h2]
        exact Function.iterate_succ_apply' f _ _
      rw [h1]
      exact Relation.TransGen.head (hf _) (ihd n)
  rcases Nat.lt_or_ge i j with hlt | hge
  · have hc := hchain (j - i - 1) i
    rw [show i + (j - i - 1) + 1 = j from by omega] at hc
    rw [heq2] at hc
    exact ⟨_, hc⟩
  · have hlt2 : j < i := lt_of_le_of_ne hge (Ne.symm hij)
    have hc := hchain (i - j - 1) j
    rw [show j + (i - j - 1) + 1 = i from by omega] at hc
    rw [← heq2] at hc
    exact ⟨_, hc⟩

theorem topoSort_error_cycle (edges : List (String × String)) :
    ∀ fuel rem, fuel = rem.length → Sort'.topoSort edges fuel rem = Except.error () →
      ∃ v, Relation.TransGen (edgeRel edges) v v := by
  intro fuel
  induction fuel with
  | zero =>
    intro rem hlen h
    cases rem with
    | nil => simp [Sort'.topoSort] at h
    | cons x xs => simp at hlen
  | succ n ih =>
    intro rem hlen h
    cases rem with
    | nil => simp [Sort'.topoSort] at h
    | cons x xs =>
      cases hf : (x :: xs).find? (Sort'.isSource edges (x :: xs)) with
      | none =>
        apply exists_cycle_of_no_source edges (x :: xs) (List.cons_ne_nil x xs)
        intro v hv
        have hns := List.find?_eq_none.mp hf v hv
        have hns2 : ¬ ∀ e ∈ edges, e.2 = v → e.1 ∉ (x :: xs) := fun hc =>
          hns (isSource_iff.mpr hc)
        push_neg at hns2
        obtain ⟨⟨e1, e2⟩, he, he2, he1⟩ := hns2
        have he2v : e2 = v := he2
        subst he2v
        exact ⟨e1, he1, he⟩
      | some u =>
        have hu : u ∈ x :: xs := List.mem_of_find?_eq_some hf
        have hlen2 : n = ((x :: xs).erase u).length := by
          rw [List.length_erase_of_mem hu]
          simp only [List.length_cons] at hlen ⊢
          omega
        cases hrec : Sort'.topoSort edges n ((x :: xs).erase u) with
        | ok tl => simp [Sort'.topoSort, hf, hrec] at h
        | error e =>
          cases e
          exact ih _ hlen2 hrec

/-- C1: on a collection whose built graph is acyclic, resolution produces a
    total ordering of the graph's nodes in which, for every edge from u to v,
    u precedes v: a successful output is a permutation of the node list
    respecting every edge, and a failure implies a cycle in the built graph,
    so acyclicity guarantees success. -/
theorem resolve_topological_order (mods : List Mod) :
    (∀ order, Sort'.resolve mods = Except.ok order →
        order.Perm (Sort'.graphNodes mods) ∧
          ∀ u v, (u, v) ∈ Sort'.graphEdges mods → Precedes u v order) ∧
      (Sort'.resolve mods = Except.error () →
        ∃ w, Relation.TransGen (edgeRel (Sort'.graphEdges mods)) w w) := by
  constructor
  · intro order h
    refine ⟨topoSort_ok_perm _ _ _ _ h, ?_⟩
    intro u v huv
    exact topoSort_ok_precedes _ _ _ _ h u v huv (mem_graphNodes_of_edge huv).1
      (mem_graphNodes_of_edge huv).2
  · intro h
    exact topoSort_error_cycle _ _ _ rfl h

/-- Witness for C1 at the concrete collection where a loads before b. -/
theorem resolve_topological_order_witness :
    Sort'.resolve [demoA, demoB] = Except.ok ["a", "b"] ∧
      (["a", "b"] : List String).Perm (Sort'.graphNodes [demoA, demoB]) ∧
      ∀ u v, (u, v) ∈ Sort'.graphEdges [demoA, demoB] → Precedes u v ["a", "b"] := by
  have h := (resolve_topological_order [demoA, demoB]).1 ["a", "b"] rfl
  exact ⟨rfl, h.1, h.2⟩

/-- C2: the code evaluated at the cyclic two-record collection: resolution
    fails, and the modelled library error, like the NetworkXUnfeasible
    exception it stands for, carries no package ids at all. -/
theorem resolve_cycle_opaque :
    Sort'.resolve [cycleA, cycleB] = Except.error () := rfl

/-- C3: at the tie collection, the modelled library order differs from the
    tie-break by collection insertion order that the spec mandates: the ready
    nodes q and r are taken in node-insertion order r, q by the library and in
    collection order q, r by the spec-modelled resolver. -/
theorem resolve_tiebreak_differs :
    Sort'.resolve tieMods = Except.ok ["a", "b", "c", "d", "r", "q", "p"] ∧
      specResolve tieMods = Except.ok ["a", "b", "c", "d", "q", "r", "p"] :=
  ⟨rfl, rfl⟩

/-- Witness instantiating the C4 characterisation at the demonstration input. -/
theorem graphEdges_spec_witness :
    ("a", "b") ∈ Sort'.graphEdges [demoA, demoB] ↔
      "a" ∉ Sort'.ignoreList ∧ "b" ∉ Sort'.ignoreList ∧
        ((∃ m ∈ [demoA, demoB], m.packageid = "a" ∧ "b" ∈ Sort'.pyIter m.before ∧
            ∃ n ∈ [demoA, demoB], n.packageid = "b") ∨
          (∃ m ∈ [demoA, demoB], m.packageid = "b" ∧ "a" ∈ Sort'.pyIter m.after ∧
            ∃ n ∈ [demoA, demoB], n.packageid = "a")) :=
  graphEdges_spec [demoA, demoB] "a" "b"

theorem graphEdges_not_ignored {mods : List Mod} {a b : String}
    (h : (a, b) ∈ Sort'.graphEdges mods) :
    a ∉ Sort'.ignoreList ∧ b ∉ Sort'.ignoreList := by
  obtain ⟨m, hm, hme⟩ := mem_rawEdges.mp (mem_graphEdges.mp h)
  rcases mem_modEdges.mp hme with ⟨h1, h2, hig1, hig2, rfl⟩ | ⟨h1, h2, hig1, hig2, rfl⟩
  · exact ⟨hig1, hig2⟩
  · exact ⟨hig2, hig1⟩

theorem modsContains_map_ignored (mods : List Mod) (f : Mod → Bool) (s : String) :
    Sort'.modsContains (mods.map (fun m => { m with ignored := f m })) s =
      Sort'.modsContains mods s := by
  unfold Sort'.modsContains
  rw [List.any_map]
  rfl

theorem modEdges_map_ignored (mods : List Mod) (f : Mod → Bool) (m : Mod) :
    Sort'.modEdges (mods.map (fun m2 => { m2 with ignored := f m2 }))
        { m with ignored := f m } =
      Sort'.modEdges mods m := by
  unfold Sort'.modEdges
  simp only [modsContains_map_ignored]

theorem rawEdges_map_ignored_aux (mods : List Mod) (f : Mod → Bool) :
    ∀ l : List Mod,
      (l.map (fun m => { m with ignored := f m })).flatMap
          (Sort'.modEdges (mods.map (fun m => { m with ignored := f m }))) =
        l.flatMap (Sort'.modEdges mods) := by
  intro l
  induction l with
  | nil => rfl
  | cons m t ih =>
    simp only [List.map_cons, List.flatMap_cons]
    rw [ih, modEdges_map_ignored]

theorem rawEdges_map_ignored (mods : List Mod) (f : Mod → Bool) :
    Sort'.rawEdges (mods.map (fun m => { m with ignored := f m })) =
      Sort'.rawEdges mods := by
  unfold Sort'.rawEdges
  exact rawEdges_map_ignored_aux mods f mods

theorem graphEdges_map_ignored (mods : List Mod) (f : Mod → Bool) :
    Sort'.graphEdges (mods.map (fun m => { m with ignored := f m })) =
      Sort'.graphEdges mods := by
  unfold Sort'.graphEdges
  rw [rawEdges_map_ignored]

theorem graphNodes_map_ignored (mods : List Mod) (f : Mod → Bool) :
    Sort'.graphNodes (mods.map (fun m => { m with ignored := f m })) =
      Sort'.graphNodes mods := by
  unfold Sort'.graphNodes
  rw [graphEdges_map_ignored]

/-- C5 counterexample: the first record of ignMods has its ignored flag set and
    still contributes the node a and the edge from a to b to the built graph,
    refuting the claim that a flagged record contributes no node and no edge. -/
theorem ignored_flag_edge_counterexample :
    (ignMods.get? 0).map Mod.ignored = some true ∧
      Sort'.graphEdges ignMods = [("a", "b")] ∧
      Sort'.graphNodes ignMods = ["a", "b"] :=
  ⟨rfl, rfl, rfl⟩

/-- C5 amended: records whose packageid is in the fixed ignore list contribute
    no node and no edge, but the ignored flag is never consulted by graph
    construction: flipping it on any subset of records changes neither the
    edges nor the nodes of the built graph. -/
theorem graph_ignore_semantics (mods : List Mod) (f : Mod → Bool) :
    (∀ v ∈ Sort'.graphNodes mods, v ∉ Sort'.ignoreList) ∧
      Sort'.graphEdges (mods.map (fun m => { m with ignored := f m })) =
        Sort'.graphEdges mods ∧
      Sort'.graphNodes (mods.map (fun m => { m with ignored := f m })) =
        Sort'.graphNodes mods := by
  refine ⟨?_, graphEdges_map_ignored mods f, graphNodes_map_ignored mods f⟩
  intro v hv
  unfold Sort'.graphNodes at hv
  rw [mem_foldl_addNode] at hv
  rcases hv with hv | ⟨⟨a, b⟩, he, hab⟩
  · exact absurd hv (List.not_mem_nil v)
  · rcases hab with rfl | rfl
    · exact (graphEdges_not_ignored he).1
    · exact (graphEdges_not_ignored he).2

/-- Witness for C5 at the concrete flagged collection. -/
theorem graph_ignore_semantics_witness :
    "a" ∉ Sort'.ignoreList ∧
      Sort'.graphEdges (ignMods.map (fun m => { m with ignored := false })) =
        Sort'.graphEdges ignMods := by
  refine ⟨(graph_ignore_semantics ignMods (fun _ => false)).1 "a" ?_, ?_⟩
  · have hn : Sort'.graphNodes ignMods = ["a", "b"] := rfl
    rw [hn]
    exact List.mem_cons_self _ _
  · exact (graph_ignore_semantics ignMods (fun _ => false)).2.1

/-- C6: V2 parse at a failing input: the loop iterates the characters of the
    text, so the field lookup for the steam id raises an uncaught IndexError at
    the first character of any nonempty text, aborting the parse instead of
    skipping the entry and continuing. -/
theorem parseV2_raises :
    ModListV2Format.parse "a.b::3::r" = Except.error () := rfl

/-- C7: the V2 round trip at a delimiter-free, fully populated record:
    serialization produces the expected line, but parsing the written text back
    fails instead of reproducing the record's field triple. -/
theorem roundtripV2_fails :
    ModListV2Format.serialize [rtMod] = Except.ok ["a.b::3::r"] ∧
      ModListV2Format.parse "a.b::3::r\n" = Except.error () :=
  ⟨rfl, rfl⟩

/-- C8: serializing a record with absent steamid and repo_url: V3 emits the
    literal None in the steam-id field rather than an empty string, and V2
    fails with the TypeError raised by joining the None repo_url. -/
theorem serialize_none_markers :
    ModListV3Format.serialize [noneMod] = ["a.b,None,"] ∧
      ModListV2Format.serialize [noneMod] = Except.error () :=
  ⟨rfl, rfl⟩

/-- C9 counterexample: two stubs with different steam ids compare equal, since
    Mod equality inspects only the (empty) packageid; a stub is never
    identified by its steam id. -/
theorem stub_eq_ignores_steamid :
    Mod.eqMod (ModStub.make 1) (ModStub.make 2) = true ∧
      (ModStub.make 1).steamid ≠ (ModStub.make 2).steamid :=
  ⟨rfl, by decide⟩

/-- C9 amended: records are equal exactly when their packageid strings match, a
    record equals a plain string exactly when the string equals its packageid,
    and any two stubs are equal regardless of their steam ids. -/
theorem mod_eq_by_packageid (m1 m2 : Mod) (s : String) (i j : Int) :
    (Mod.eqMod m1 m2 = true ↔ m1.packageid = m2.packageid) ∧
      (Mod.eqStr m1 s = true ↔ m1.packageid = s) ∧
      Mod.eqMod (ModStub.make i) (ModStub.make j) = true := by
  refine ⟨?_, ?_, rfl⟩
  · simp [Mod.eqMod]
  · simp [Mod.eqStr]

/-- Witness instantiating the C9 amended statement at concrete records. -/
theorem mod_eq_by_packageid_witness :
    (Mod.eqMod demoA demoB = true ↔ demoA.packageid = demoB.packageid) ∧
      (Mod.eqStr demoA "a" = true ↔ demoA.packageid = "a") ∧
      Mod.eqMod (ModStub.make 1) (ModStub.make 2) = true :=
  mod_eq_by_packageid demoA demoB "a" 1 2

/-- C10: ModList.insert replaces the element at an in-range index and preserves
    the length; at index len(data) the underlying item assignment raises
    IndexError instead of extending the list, so the inherited append always
    fails. -/
theorem modlist_insert_replaces (data : List Mod) (x : Mod) :
    (∀ i : Nat, i < data.length →
        ModList.insert data (i : Int) x = Except.ok (data.set i x) ∧
          (data.set i x).length = data.length) ∧
      ModList.insert data (data.length : Int) x = Except.error () ∧
      ModList.append data x = Except.error () := by
  have herr : ModList.insert data (data.length : Int) x = Except.error () := by
    have hc1 : ¬ ((data.length : Int) < 0) := by omega
    simp [ModList.insert, hc1]
  refine ⟨?_, herr, ?_⟩
  · intro i hi
    have hc1 : ¬ ((i : Int) < 0) := by omega
    have hc2 : (0 : Int) ≤ (i : Int) := by omega
    have hc3 : (i : Int) < (data.length : Int) := by exact_mod_cast hi
    constructor
    · simp [ModList.insert, hc1, hc2, hc3]
    · simp
  · unfold ModList.append
    exact herr

/-- Witness for C10 at a concrete two-record list. -/
theorem modlist_insert_replaces_witness :
    ModList.insert [demoA, demoB] 0 demoB = Except.ok [demoB, demoB] ∧
      ModList.append [demoA, demoB] demoB = Except.error () := by
  have h := modlist_insert_replaces [demoA, demoB] demoB
  exact ⟨(h.1 0 (by decide)).1, h.2.2⟩

end Rmm
